import Mathlib

/-!
Verification of the ear-clipping triangulator (fixed-point mode).

The definitions below are a shallow embedding of the C++ sources:
`la2d.h` (geometric primitives), `integrate_polygon.h` (signed-area
integration) and the `EarClipper` class (polygon store, convex/reflex
classification, ear-tip set maintenance, clipping loop).  In fixed-point
mode the number type is a 64-bit integer and the snapping epsilon is 0;
we model the number type as `Int`.  The `unordered_set`s of vertex
iterators are modelled as duplicate-free lists of stable vertex ids
(the iteration order of an `unordered_set` is unspecified in the
source; the model fixes a concrete order: the ear selected by `begin()`
is the head of the list, and `insert` appends at the tail).  The
stream emissions of triangles are recorded in a `tris` field.
-/

namespace EarClip

/-- `struct Point { Num x = 0, y = 0; }` with `Num = int64_t` modelled as `Int`. -/
structure Point where
  x : Int
  y : Int
deriving DecidableEq, Repr

/-- `constexpr Num epsilon = use_fixed_point_arithmetic ? 0 : Num(1e-8);` (fixed-point mode). -/
def epsilon : Int := 0

/-- `operator-(a, b)` returns the vector `b - a` (note the argument convention). -/
def vsub (a b : Point) : Point := ⟨b.x - a.x, b.y - a.y⟩

/-- `cross_product(a, b) = a.x*b.y - a.y*b.x`. -/
def cross_product (a b : Point) : Int := a.x * b.y - a.y * b.x

/-- `triangle_area(a, b, c)`: `cross_product(b-a, c-a)`, snapped to 0 when
its absolute value is at most `epsilon` (a no-op in fixed-point mode). -/
def triangle_area (a b c : Point) : Int :=
  let area := cross_product (vsub a b) (vsub a c)
  if |area| ≤ epsilon then 0 else area

/-- `inside_triangle(v, a, b, c)`: strict interior test via the three signed
sub-triangle areas, returning `false` as soon as any sub-area is zero. -/
def inside_triangle (v a b c : Point) : Bool :=
  let vab := triangle_area v a b
  if vab = 0 then false
  else
    let vbc := triangle_area v b c
    if vbc = 0 then false
    else if (decide (vab > 0)) != (decide (vbc > 0)) then false
    else
      let vca := triangle_area v c a
      if vca = 0 then false
      else (decide (vbc > 0)) == (decide (vca > 0))

/-- The circular edge pairs `(p0, p1)` traversed by the do-while loops of the
source: `p0` runs over the list, `p1` over the list rotated by one. -/
def edgePairs (ps : List Point) : List (Point × Point) :=
  ps.zip (ps.rotate 1)

/-- `integrate_polygon(points)`: accumulates `(p0.y + p1.y) * (p1.x - p0.x)`
over every circularly-consecutive edge pair (only when at least 3 points),
and returns the negated total. -/
def integrate_polygon (ps : List Point) : Int :=
  -(if 3 ≤ ps.length then
      ((edgePairs ps).map (fun q => (q.1.y + q.2.y) * (q.2.x - q.1.x))).sum
    else 0)

/-- The shoelace signed-area sum `Σ (xᵢ * y_{i+1} - x_{i+1} * yᵢ)` over all
circular edges (twice the enclosed signed area). -/
def shoelace (ps : List Point) : Int :=
  ((edgePairs ps).map (fun q => q.1.x * q.2.y - q.2.x * q.1.y)).sum

/-- The state of an `EarClipper` object.  Vertices carry a stable id (their
index in the constructor's point list), so removals keep the identity of the
remaining vertices, as the `std::list` iterators do in the source.  `tris`
records the triangles emitted on `std::cout`. -/
structure State where
  points : List (Nat × Point)
  eartip_points : List Nat
  concav_points : List Nat
  area_from_integral : Int
  area_from_triangulation : Int
  tris : List (Point × Point × Point)
deriving DecidableEq, Repr

/-- Position of the vertex with id `i` in the current circular order. -/
def idxOf (s : State) (i : Nat) : Nat :=
  s.points.findIdx (fun q => q.1 == i)

/-- The coordinates stored at position `k` of the circular order. -/
def ptAt (s : State) (k : Nat) : Point :=
  ((s.points.getD k (0, ⟨0, 0⟩)).2)

/-- The coordinates of the vertex with id `i`. -/
def pointOf (s : State) (i : Nat) : Point :=
  ptAt s (idxOf s i)

/-- Id of `next(i)` in the circular order (`next` of the source). -/
def nextId (s : State) (i : Nat) : Nat :=
  (s.points.getD ((idxOf s i + 1) % s.points.length) (0, ⟨0, 0⟩)).1

/-- Id of `prev(i)` in the circular order (`prev` of the source). -/
def prevId (s : State) (i : Nat) : Nat :=
  (s.points.getD ((idxOf s i + s.points.length - 1) % s.points.length) (0, ⟨0, 0⟩)).1

/-- `check_convex(p1)`: the local triangle (prev, p1, next) has nonzero area
whose sign matches the sign of `area_from_integral`. -/
def check_convex (s : State) (p1 : Nat) : Bool :=
  let area := triangle_area (pointOf s (prevId s p1)) (pointOf s p1) (pointOf s (nextId s p1))
  area ≠ 0 && ((decide (area > 0)) == (decide (s.area_from_integral > 0)))

/-- `check_ear(p1)`: no member of `concav_points` lies strictly inside the
triangle (prev, p1, next). -/
def check_ear (s : State) (p1 : Nat) : Bool :=
  let p0 := pointOf s (prevId s p1)
  let pm := pointOf s p1
  let p2 := pointOf s (nextId s p1)
  s.concav_points.all (fun v => !(inside_triangle (pointOf s v) p0 pm p2))

/-- Set-insert into the eartip list: no duplicates, appended at the tail. -/
def insertId (i : Nat) (l : List Nat) : List Nat :=
  if i ∈ l then l else l ++ [i]

/-- Constructor step `find_concave_and_eartips`: classify every vertex of the
initial polygon as convex (provisional ear tip) or concave, then filter the
provisional ear tips through `check_ear`. -/
def find_concave_and_eartips (s : State) : State :=
  let ids := s.points.map (fun q => q.1)
  let convex := ids.filter (fun i => check_convex s i)
  let concav := ids.filter (fun i => !(check_convex s i))
  let s1 : State := { s with concav_points := concav }
  { s1 with eartip_points := convex.filter (fun i => check_ear s1 i) }

/-- `if given last point = first: remove to circular iterate with next()`:
drop the final point when it has the same coordinates as the first. -/
def removeClosingDup (ps : List Point) : List Point :=
  match ps.head?, ps.getLast? with
  | some f, some l => if f.x = l.x ∧ f.y = l.y then ps.dropLast else ps
  | _, _ => ps

/-- The `EarClipper` constructor: drop a closing duplicate, abort (`none`,
modelling the failed `assert`) when fewer than 3 vertices remain, otherwise
integrate the polygon and run the initial classification. -/
def mkClipper (input : List Point) : Option State :=
  let ps := removeClosingDup input
  if ps.length < 3 then none
  else
    let pts := ps.enum
    let s0 : State :=
      { points := pts, eartip_points := [], concav_points := [],
        area_from_integral := integrate_polygon ps, area_from_triangulation := 0,
        tris := [] }
    some (find_concave_and_eartips s0)

/-- The per-neighbour maintenance step after a removal: if the vertex is now
convex, drop it from the concave set and insert it into (or drop it from)
the ear-tip set according to `check_ear`; otherwise leave every set as is. -/
def updateNeighbor (s : State) (p : Nat) : State :=
  if check_convex s p then
    let s1 : State := { s with concav_points := s.concav_points.erase p }
    if check_ear s1 p then { s1 with eartip_points := insertId p s1.eartip_points }
    else { s1 with eartip_points := s1.eartip_points.erase p }
  else s

/-- One iteration of the clipping loop: select the first ear tip, check the
`assert(area == 0 || check_convex(p1))` (a failure is `none`), emit and
accumulate when the area is nonzero, remove the vertex from the polygon and
the ear-tip set, and re-examine the two former neighbours.  A selected id
that is no longer in the polygon would be an invalidated iterator in the
source; that is also modelled as `none`. -/
def clipStep (s : State) : Option State :=
  match s.eartip_points with
  | [] => none
  | p1 :: _ =>
    if s.points.any (fun q => q.1 == p1) then
      let i0 := prevId s p1
      let i2 := nextId s p1
      let a := pointOf s i0
      let b := pointOf s p1
      let c := pointOf s i2
      let area := triangle_area a b c
      if area = 0 ∨ check_convex s p1 = true then
        let s1 : State :=
          if area = 0 then s
          else { s with area_from_triangulation := s.area_from_triangulation + area,
                        tris := s.tris ++ [(a, b, c)] }
        let s2 : State :=
          { s1 with eartip_points := s1.eartip_points.erase p1,
                    points := s1.points.eraseP (fun q => q.1 == p1) }
        some (updateNeighbor (updateNeighbor s2 i0) i2)
      else none
    else none

/-- The clipping loop, with an explicit fuel argument (any fuel at least the
number of remaining vertices is enough, since every iteration removes one
vertex).  Returns the final state and the number of iterations performed;
`none` models an `assert` failure inside the loop. -/
def clipLoop : Nat → State → Option (State × Nat)
  | 0, s => some (s, 0)
  | fuel + 1, s =>
    if s.eartip_points ≠ [] ∧ 3 ≤ s.points.length then
      match clipStep s with
      | none => none
      | some s2 => (clipLoop fuel s2).map (fun r => (r.1, r.2 + 1))
    else some (s, 0)

/-- The whole run of `EarClipper::operator()` after construction. -/
def runClipper (input : List Point) : Option (State × Nat) :=
  match mkClipper input with
  | none => none
  | some s => clipLoop s.points.length s

/-! ### Spec-side definitions

The definitions below are not part of the program; they state, in standard
geometric terms, the properties the specification talks about (strict
interior of a triangle, simple polygon, collinearity of consecutive
vertices, the full-vertex ear test, the claimed set invariant). -/

/-- `v` lies strictly inside the triangle `abc`: the triangle is
non-degenerate and `v` is a convex combination of the three corners with
all three barycentric coordinates strictly positive (over `ℚ`). -/
def StrictlyInside (v a b c : Point) : Prop :=
  triangle_area a b c ≠ 0 ∧
  ∃ al be ga : ℚ, 0 < al ∧ 0 < be ∧ 0 < ga ∧ al + be + ga = 1 ∧
    (v.x : ℚ) = al * a.x + be * b.x + ga * c.x ∧
    (v.y : ℚ) = al * a.y + be * b.y + ga * c.y

/-- `p` lies on the closed segment from `a` to `b`. -/
def OnSeg (a b p : Point) : Prop :=
  triangle_area a b p = 0 ∧
    min a.x b.x ≤ p.x ∧ p.x ≤ max a.x b.x ∧ min a.y b.y ≤ p.y ∧ p.y ≤ max a.y b.y

instance (a b p : Point) : Decidable (OnSeg a b p) := by
  unfold OnSeg; infer_instance

/-- The closed segments `ab` and `cd` share at least one point. -/
def SegMeet (a b c d : Point) : Prop :=
  (triangle_area c d a ≠ 0 ∧ triangle_area c d b ≠ 0 ∧
   triangle_area a b c ≠ 0 ∧ triangle_area a b d ≠ 0 ∧
   ((0 < triangle_area c d a) ↔ ¬(0 < triangle_area c d b)) ∧
   ((0 < triangle_area a b c) ↔ ¬(0 < triangle_area a b d))) ∨
  OnSeg c d a ∨ OnSeg c d b ∨ OnSeg a b c ∨ OnSeg a b d

instance (a b c d : Point) : Decidable (SegMeet a b c d) := by
  unfold SegMeet; infer_instance

/-- Vertex at index `k` of the polygon (0-based, for the simplicity test). -/
def vtx (ps : List Point) (k : Nat) : Point := ps.getD k ⟨0, 0⟩

/-- The polygon `ps` is strictly simple: at least 3 pairwise distinct
vertices, non-adjacent edges share no point, and no vertex lies on an edge
it is not an endpoint of (this also rules out overlapping adjacent edges). -/
def StrictlySimple (ps : List Point) : Prop :=
  3 ≤ ps.length ∧ ps.Nodup ∧
  (∀ i j : Fin ps.length,
    (i.1 + 1) % ps.length ≠ j.1 → (j.1 + 1) % ps.length ≠ i.1 → i.1 ≠ j.1 →
    ¬ SegMeet (vtx ps i.1) (vtx ps ((i.1 + 1) % ps.length))
              (vtx ps j.1) (vtx ps ((j.1 + 1) % ps.length))) ∧
  (∀ i k : Fin ps.length, k.1 ≠ i.1 → k.1 ≠ (i.1 + 1) % ps.length →
    ¬ OnSeg (vtx ps i.1) (vtx ps ((i.1 + 1) % ps.length)) (vtx ps k.1))

instance (ps : List Point) : Decidable (StrictlySimple ps) := by
  unfold StrictlySimple; infer_instance

/-- No three circularly-consecutive vertices of `ps` are collinear. -/
def NoThreeConsecutiveCollinear (ps : List Point) : Prop :=
  ∀ i : Fin ps.length,
    triangle_area (vtx ps i.1) (vtx ps ((i.1 + 1) % ps.length))
      (vtx ps ((i.1 + 2) % ps.length)) ≠ 0

instance (ps : List Point) : Decidable (NoThreeConsecutiveCollinear ps) := by
  unfold NoThreeConsecutiveCollinear; infer_instance

/-- The spec-side ear test: no other remaining polygon vertex lies strictly
inside the triangle (prev, p1, next). -/
def full_vertex_check (s : State) (p1 : Nat) : Bool :=
  let p0 := pointOf s (prevId s p1)
  let pm := pointOf s p1
  let p2 := pointOf s (nextId s p1)
  s.points.all (fun q => q.1 == p1 || !(inside_triangle q.2 p0 pm p2))

/-- The claimed characterization of the two maintained sets: the ear-tip set
is exactly the set of remaining vertices that are convex and pass the ear
test, the concave set is exactly the set of remaining non-convex vertices,
and both sets only mention remaining vertices. -/
def SetsCharacterized (s : State) : Prop :=
  (∀ q ∈ s.points,
      ((q.1 ∈ s.eartip_points) ↔ (check_convex s q.1 = true ∧ check_ear s q.1 = true)) ∧
      ((q.1 ∈ s.concav_points) ↔ check_convex s q.1 = false)) ∧
  (∀ i ∈ s.eartip_points, i ∈ s.points.map Prod.fst) ∧
  (∀ i ∈ s.concav_points, i ∈ s.points.map Prod.fst)

instance (s : State) : Decidable (SetsCharacterized s) := by
  unfold SetsCharacterized; infer_instance

/-! ### Basic facts about the geometric primitives -/

/-- In fixed-point mode the epsilon snap is the identity, so `triangle_area`
is the plain double signed area in coordinates. -/
theorem triangle_area_coords (a b c : Point) :
    triangle_area a b c = (b.x - a.x) * (c.y - a.y) - (b.y - a.y) * (c.x - a.x) := by
  show (if _ then _ else _) = _
  split_ifs with h
  · have h0 := abs_nonpos_iff.mp h
    exact h0.symm
  · rfl

theorem area_add_three (v a b c : Point) :
    triangle_area v a b + triangle_area v b c + triangle_area v c a
      = triangle_area a b c := by
  simp only [triangle_area_coords]; ring

theorem bary_x (v a b c : Point) :
    triangle_area v b c * a.x + triangle_area v c a * b.x + triangle_area v a b * c.x
      = triangle_area a b c * v.x := by
  simp only [triangle_area_coords]; ring

theorem bary_y (v a b c : Point) :
    triangle_area v b c * a.y + triangle_area v c a * b.y + triangle_area v a b * c.y
      = triangle_area a b c * v.y := by
  simp only [triangle_area_coords]; ring

/-- Unfolded characterization of the strict point-in-triangle test: all three
sub-areas are nonzero and share one sign. -/
theorem inside_triangle_iff (v a b c : Point) :
    inside_triangle v a b c = true ↔
      (triangle_area v a b ≠ 0 ∧ triangle_area v b c ≠ 0 ∧ triangle_area v c a ≠ 0 ∧
        (0 < triangle_area v a b ↔ 0 < triangle_area v b c) ∧
        (0 < triangle_area v b c ↔ 0 < triangle_area v c a)) := by
  show (if _ then _ else _) = _ ↔ _
  split_ifs with h1 h2 h3 <;>
    simp_all [bne_iff_ne, decide_eq_decide, beq_iff_eq]

/-- If the strict test succeeds, the point has positive barycentric
coordinates with respect to a non-degenerate triangle. -/
theorem strictlyInside_of_inside {v a b c : Point}
    (h : inside_triangle v a b c = true) : StrictlyInside v a b c := by
  rw [inside_triangle_iff] at h
  obtain ⟨h1, h2, h3, h12, h23⟩ := h
  have hsum := area_add_three v a b c
  have hD : triangle_area a b c ≠ 0 := by omega
  have hDq : (triangle_area a b c : ℚ) ≠ 0 := Int.cast_ne_zero.mpr hD
  have hcase : (0 < triangle_area v a b ∧ 0 < triangle_area v b c ∧
      0 < triangle_area v c a ∧ 0 < triangle_area a b c) ∨
      (triangle_area v a b < 0 ∧ triangle_area v b c < 0 ∧
      triangle_area v c a < 0 ∧ triangle_area a b c < 0) := by omega
  refine ⟨hD, (triangle_area v b c : ℚ) / (triangle_area a b c : ℚ),
      (triangle_area v c a : ℚ) / (triangle_area a b c : ℚ),
      (triangle_area v a b : ℚ) / (triangle_area a b c : ℚ), ?_, ?_, ?_, ?_, ?_, ?_⟩
  · rcases hcase with ⟨_, hp, _, hq⟩ | ⟨_, hp, _, hq⟩
    · exact div_pos (by exact_mod_cast hp) (by exact_mod_cast hq)
    · exact div_pos_of_neg_of_neg (by exact_mod_cast hp) (by exact_mod_cast hq)
  · rcases hcase with ⟨_, _, hp, hq⟩ | ⟨_, _, hp, hq⟩
    · exact div_pos (by exact_mod_cast hp) (by exact_mod_cast hq)
    · exact div_pos_of_neg_of_neg (by exact_mod_cast hp) (by exact_mod_cast hq)
  · rcases hcase with ⟨hp, _, _, hq⟩ | ⟨hp, _, _, hq⟩
    · exact div_pos (by exact_mod_cast hp) (by exact_mod_cast hq)
    · exact div_pos_of_neg_of_neg (by exact_mod_cast hp) (by exact_mod_cast hq)
  · have hq : ((triangle_area v b c : ℚ)) + (triangle_area v c a : ℚ)
        + (triangle_area v a b : ℚ) = (triangle_area a b c : ℚ) := by
      exact_mod_cast (by omega : triangle_area v b c + triangle_area v c a
        + triangle_area v a b = triangle_area a b c)
    field_simp
    linarith
  · have hq := bary_x v a b c
    have hqq : (triangle_area v b c : ℚ) * a.x + (triangle_area v c a : ℚ) * b.x
        + (triangle_area v a b : ℚ) * c.x = (triangle_area a b c : ℚ) * v.x := by
      exact_mod_cast hq
    field_simp
    linarith
  · have hq := bary_y v a b c
    have hqq : (triangle_area v b c : ℚ) * a.y + (triangle_area v c a : ℚ) * b.y
        + (triangle_area v a b : ℚ) * c.y = (triangle_area a b c : ℚ) * v.y := by
      exact_mod_cast hq
    field_simp
    linarith

/-- Conversely, positive barycentric coordinates make the strict test
succeed. -/
theorem inside_of_strictlyInside {v a b c : Point}
    (h : StrictlyInside v a b c) : inside_triangle v a b c = true := by
  obtain ⟨hD, al, be, ga, hal, hbe, hga, hsum, hx, hy⟩ := h
  have hDq : (triangle_area a b c : ℚ) ≠ 0 := Int.cast_ne_zero.mpr hD
  have hga' : ga = 1 - al - be := by linarith
  subst hga'
  have hbc : (triangle_area v b c : ℚ) = al * (triangle_area a b c : ℚ) := by
    simp only [triangle_area_coords]
    push_cast
    rw [hx, hy]
    ring
  have hca : (triangle_area v c a : ℚ) = be * (triangle_area a b c : ℚ) := by
    simp only [triangle_area_coords]
    push_cast
    rw [hx, hy]
    ring
  have hab : (triangle_area v a b : ℚ) = (1 - al - be) * (triangle_area a b c : ℚ) := by
    simp only [triangle_area_coords]
    push_cast
    rw [hx, hy]
    ring
  have key : ∀ t : ℚ, 0 < t → ((0 < t * (triangle_area a b c : ℚ)) ↔
      (0 < (triangle_area a b c : ℚ))) := by
    intro t ht
    constructor
    · intro hpos
      rcases mul_pos_iff.mp hpos with ⟨_, hq⟩ | ⟨hq, _⟩
      · exact hq
      · linarith
    · exact fun hq => mul_pos ht hq
  rw [inside_triangle_iff]
  refine ⟨?_, ?_, ?_, ?_, ?_⟩
  · have : (triangle_area v a b : ℚ) ≠ 0 := by
      rw [hab]; exact mul_ne_zero (by linarith) hDq
    exact_mod_cast this
  · have : (triangle_area v b c : ℚ) ≠ 0 := by
      rw [hbc]; exact mul_ne_zero (by linarith) hDq
    exact_mod_cast this
  · have : (triangle_area v c a : ℚ) ≠ 0 := by
      rw [hca]; exact mul_ne_zero (by linarith) hDq
    exact_mod_cast this
  · have hiff : (0 < (triangle_area v a b : ℚ)) ↔ (0 < (triangle_area v b c : ℚ)) := by
      rw [hab, hbc, key al hal, key (1 - al - be) (by linarith)]
    constructor
    · intro hp; exact_mod_cast hiff.mp (by exact_mod_cast hp)
    · intro hp; exact_mod_cast hiff.mpr (by exact_mod_cast hp)
  · have hiff : (0 < (triangle_area v b c : ℚ)) ↔ (0 < (triangle_area v c a : ℚ)) := by
      rw [hbc, hca, key al hal, key be hbe]
    constructor
    · intro hp; exact_mod_cast hiff.mp (by exact_mod_cast hp)
    · intro hp; exact_mod_cast hiff.mpr (by exact_mod_cast hp)

theorem area_cyclic (a b c : Point) : triangle_area b c a = triangle_area a b c := by
  simp only [triangle_area_coords]; ring

theorem area_swap (a b c : Point) : triangle_area a c b = -triangle_area a b c := by
  simp only [triangle_area_coords]; ring

theorem inside_triangle_cyclic (v a b c : Point) :
    inside_triangle v b c a = inside_triangle v a b c := by
  rw [Bool.eq_iff_iff, inside_triangle_iff, inside_triangle_iff]
  omega

theorem inside_triangle_swap (v a b c : Point) :
    inside_triangle v a c b = inside_triangle v a b c := by
  rw [Bool.eq_iff_iff, inside_triangle_iff, inside_triangle_iff,
    area_swap v a c, show triangle_area v c b = -triangle_area v b c from area_swap v b c,
    show triangle_area v b a = -triangle_area v a b from area_swap v a b]
  omega

/-- C10: in fixed-point mode the signed triangle area is invariant under
cyclic permutation of its arguments and antisymmetric under swapping two of
them, so the orientation-based predicates depend on the vertex order only
through the orientation sign; in particular the strict containment test is
invariant under cyclic permutation and under a swap of the triangle
corners. -/
theorem triangle_area_cyclic_antisymm (a b c v : Point) :
    triangle_area b c a = triangle_area a b c ∧
    triangle_area c a b = triangle_area a b c ∧
    triangle_area a c b = -triangle_area a b c ∧
    inside_triangle v b c a = inside_triangle v a b c ∧
    inside_triangle v a c b = inside_triangle v a b c :=
  ⟨area_cyclic a b c, (area_cyclic b c a).trans (area_cyclic a b c),
    area_swap a b c, inside_triangle_cyclic v a b c, inside_triangle_swap v a b c⟩

/-- C2: `inside_triangle v a b c` holds exactly when `v` lies strictly
inside the triangle `abc` (positive barycentric coordinates of a
non-degenerate triangle), and whenever one of the three signed sub-areas is
zero — `v` on an edge or coincident with a corner — the test returns
`false`. -/
theorem inside_triangle_strict_interior (v a b c : Point) :
    (inside_triangle v a b c = true ↔ StrictlyInside v a b c) ∧
    ((triangle_area v a b = 0 ∨ triangle_area v b c = 0 ∨ triangle_area v c a = 0) →
      inside_triangle v a b c = false) := by
  constructor
  · exact ⟨fun h => strictlyInside_of_inside h, fun h => inside_of_strictlyInside h⟩
  · intro h0
    cases hIT : inside_triangle v a b c with
    | false => rfl
    | true =>
      obtain ⟨h1, h2, h3, _, _⟩ := (inside_triangle_iff v a b c).mp hIT
      rcases h0 with h | h | h <;> [exact absurd h h1; exact absurd h h2; exact absurd h h3]

/-- Witness for C2 at a concrete input: the centroid of the triangle
`(0,0),(3,0),(0,3)` is strictly inside, a point on the bottom edge is not. -/
theorem inside_triangle_strict_interior_witness :
    inside_triangle ⟨1, 1⟩ ⟨0, 0⟩ ⟨3, 0⟩ ⟨0, 3⟩ = true ∧
    inside_triangle ⟨1, 0⟩ ⟨0, 0⟩ ⟨3, 0⟩ ⟨0, 3⟩ = false :=
  ⟨(inside_triangle_strict_interior ⟨1, 1⟩ ⟨0, 0⟩ ⟨3, 0⟩ ⟨0, 3⟩).1.mpr
      ⟨by decide, 1/3, 1/3, 1/3, by norm_num, by norm_num, by norm_num, by norm_num,
        by norm_num, by norm_num⟩,
    (inside_triangle_strict_interior ⟨1, 0⟩ ⟨0, 0⟩ ⟨3, 0⟩ ⟨0, 3⟩).2 (Or.inl (by decide))⟩

/-! ### The integration formula -/

theorem sum_map_add_int {α : Type} (l : List α) (f g : α → Int) :
    (l.map (fun x => f x + g x)).sum = (l.map f).sum + (l.map g).sum := by
  induction l with
  | nil => simp
  | cons x xs ih => simp only [List.map_cons, List.sum_cons, ih]; ring

theorem sum_map_neg_int {α : Type} (l : List α) (f : α → Int) :
    (l.map (fun x => -f x)).sum = -(l.map f).sum := by
  induction l with
  | nil => simp
  | cons x xs ih => simp only [List.map_cons, List.sum_cons, ih]; ring

/-- The telescoping sum `Σ (x₀y₀ - x₁y₁)` over all circular edges is zero,
because first and second components of the circular edge pairs run over the
same multiset of vertices. -/
theorem sum_xy_telescope (ps : List Point) :
    ((edgePairs ps).map (fun q => q.1.x * q.1.y - q.2.x * q.2.y)).sum = 0 := by
  have hlen1 : ps.length ≤ (ps.rotate 1).length := by rw [List.length_rotate]
  have hlen2 : (ps.rotate 1).length ≤ ps.length := by rw [List.length_rotate]
  have h1 : ((edgePairs ps).map (fun q => q.1.x * q.1.y)).sum
      = (ps.map (fun p => p.x * p.y)).sum := by
    have : (edgePairs ps).map (fun q => q.1.x * q.1.y)
        = ((edgePairs ps).map Prod.fst).map (fun p => p.x * p.y) := by
      rw [List.map_map]; rfl
    rw [this, edgePairs, List.map_fst_zip _ _ hlen1]
  have h2 : ((edgePairs ps).map (fun q => q.2.x * q.2.y)).sum
      = (ps.map (fun p => p.x * p.y)).sum := by
    have e : (edgePairs ps).map (fun q => q.2.x * q.2.y)
        = ((edgePairs ps).map Prod.snd).map (fun p => p.x * p.y) := by
      rw [List.map_map]; rfl
    rw [e, edgePairs, List.map_snd_zip _ _ hlen2]
    exact ((ps.rotate_perm 1).map (fun p => p.x * p.y)).sum_eq
  have e : (edgePairs ps).map (fun q => q.1.x * q.1.y - q.2.x * q.2.y)
      = (edgePairs ps).map (fun q => q.1.x * q.1.y + -(q.2.x * q.2.y)) := by
    apply List.map_congr_left; intro q _; ring
  rw [e, sum_map_add_int, sum_map_neg_int, h1, h2]
  ring

/-- C9: for every point sequence with at least 3 points, `integrate_polygon`
— the negated accumulation of `(p0.y + p1.y) * (p1.x - p0.x)` over all
circularly-consecutive edge pairs — equals the shoelace signed-area sum
`Σ (xᵢ y_{i+1} - x_{i+1} yᵢ)`. -/
theorem integrate_polygon_eq_shoelace (ps : List Point) (h : 3 ≤ ps.length) :
    integrate_polygon ps = shoelace ps := by
  unfold integrate_polygon shoelace
  rw [if_pos h, ← sum_map_neg_int]
  have e : (edgePairs ps).map (fun q => -((q.1.y + q.2.y) * (q.2.x - q.1.x)))
      = (edgePairs ps).map (fun q => (q.1.x * q.2.y - q.2.x * q.1.y)
          + (q.1.x * q.1.y - q.2.x * q.2.y)) := by
    apply List.map_congr_left; intro q _; ring
  rw [e, sum_map_add_int, sum_xy_telescope]
  ring

/-- Witness for C9 at a concrete counter-clockwise square. -/
theorem integrate_polygon_eq_shoelace_witness :
    integrate_polygon [⟨0, 0⟩, ⟨4, 0⟩, ⟨4, 4⟩, ⟨0, 4⟩]
        = shoelace [⟨0, 0⟩, ⟨4, 0⟩, ⟨4, 4⟩, ⟨0, 4⟩] ∧
      shoelace [⟨0, 0⟩, ⟨4, 0⟩, ⟨4, 4⟩, ⟨0, 4⟩] = 32 :=
  ⟨integrate_polygon_eq_shoelace _ (by decide), by decide⟩

/-! ### Construction and the degenerate-ear step -/

/-- C4: when fewer than 3 vertices remain after the closing-duplicate
removal, the constructor aborts (its `assert(points.size() >= 3)` fails)
before any triangulation state is built. -/
theorem mkClipper_abort_below_three (input : List Point) (_h0 : input ≠ [])
    (h : (removeClosingDup input).length < 3) : mkClipper input = none := by
  unfold mkClipper
  rw [if_pos h]

/-- Witness for C4: a 3-point input whose last point closes the polygon is
reduced to 2 points and rejected. -/
theorem mkClipper_abort_below_three_witness :
    mkClipper [⟨0, 0⟩, ⟨5, 0⟩, ⟨0, 0⟩] = none :=
  mkClipper_abort_below_three _ (by decide) (by decide)

theorem updateNeighbor_points (s : State) (p : Nat) :
    (updateNeighbor s p).points = s.points := by
  unfold updateNeighbor
  split_ifs
  · dsimp only; split_ifs <;> rfl
  · rfl

theorem updateNeighbor_tris (s : State) (p : Nat) :
    (updateNeighbor s p).tris = s.tris := by
  unfold updateNeighbor
  split_ifs
  · dsimp only; split_ifs <;> rfl
  · rfl

theorem updateNeighbor_area (s : State) (p : Nat) :
    (updateNeighbor s p).area_from_triangulation = s.area_from_triangulation := by
  unfold updateNeighbor
  split_ifs
  · dsimp only; split_ifs <;> rfl
  · rfl

theorem updateNeighbor_integral (s : State) (p : Nat) :
    (updateNeighbor s p).area_from_integral = s.area_from_integral := by
  unfold updateNeighbor
  split_ifs
  · dsimp only; split_ifs <;> rfl
  · rfl

/-- C5: when the selected ear tip has a degenerate (zero-area) triangle, the
iteration succeeds without emitting a triangle and without touching the
accumulated triangulation area, yet the vertex is removed from the polygon
(the vertex count drops by one) and the loop goes on. -/
theorem clipStep_degenerate (s : State) (p1 : Nat) (rest : List Nat)
    (h1 : s.eartip_points = p1 :: rest)
    (h2 : (s.points.any fun q => q.1 == p1) = true)
    (h3 : triangle_area (pointOf s (prevId s p1)) (pointOf s p1)
      (pointOf s (nextId s p1)) = 0) :
    ∃ s2, clipStep s = some s2 ∧ s2.tris = s.tris ∧
      s2.area_from_triangulation = s.area_from_triangulation ∧
      s2.points = s.points.eraseP (fun q => q.1 == p1) ∧
      s2.points.length + 1 = s.points.length := by
  rw [clipStep.eq_def, h1]
  dsimp only
  rw [if_pos h2, if_pos (Or.inl h3), if_pos h3]
  refine ⟨_, rfl, ?_, ?_, ?_, ?_⟩
  · rw [updateNeighbor_tris, updateNeighbor_tris]
  · rw [updateNeighbor_area, updateNeighbor_area]
  · rw [updateNeighbor_points, updateNeighbor_points]
  · rw [updateNeighbor_points, updateNeighbor_points]
    obtain ⟨q, hq, hpq⟩ := List.any_eq_true.mp h2
    exact List.length_eraseP_add_one hq hpq

/-- Witness for C5: a state whose selected ear tip `1` sits between two
collinear neighbours; the step removes it and emits nothing. -/
theorem clipStep_degenerate_witness :
    ∃ s2, clipStep ⟨[(0, ⟨0, 0⟩), (1, ⟨1, 0⟩), (2, ⟨2, 0⟩)], [1], [0, 2], 5, 0, []⟩
        = some s2 ∧
      s2.tris = ([] : List (Point × Point × Point)) ∧
      s2.area_from_triangulation = 0 ∧
      s2.points = ([(0, ⟨0, 0⟩), (1, ⟨1, 0⟩), (2, ⟨2, 0⟩)] :
          List (Nat × Point)).eraseP (fun q => q.1 == 1) ∧
      s2.points.length + 1
        = ([(0, ⟨0, 0⟩), (1, ⟨1, 0⟩), (2, ⟨2, 0⟩)] : List (Nat × Point)).length :=
  clipStep_degenerate ⟨[(0, ⟨0, 0⟩), (1, ⟨1, 0⟩), (2, ⟨2, 0⟩)], [1], [0, 2], 5, 0, []⟩
    1 [] rfl (by decide) (by decide)

/-! ### The clipping loop -/

/-- Every successful iteration of the loop removes exactly one vertex. -/
theorem clipStep_length {s s2 : State} (h : clipStep s = some s2) :
    s2.points.length + 1 = s.points.length := by
  rw [clipStep.eq_def] at h
  rcases heq : s.eartip_points with _ | ⟨p1, rest⟩ <;> rw [heq] at h
  · simp at h
  · dsimp only at h
    split_ifs at h with h2 h3 h4
    · obtain rfl := Option.some.inj h
      rw [updateNeighbor_points, updateNeighbor_points]
      obtain ⟨q, hq, hpq⟩ := List.any_eq_true.mp h2
      exact List.length_eraseP_add_one hq hpq
    · obtain rfl := Option.some.inj h
      rw [updateNeighbor_points, updateNeighbor_points]
      obtain ⟨q, hq, hpq⟩ := List.any_eq_true.mp h2
      exact List.length_eraseP_add_one hq hpq

/-- Invariant of the clipping loop: with enough fuel, a completed run (one
with no assert failure) ends precisely because the ear-tip set is empty or
fewer than 3 vertices remain, each of its `k` iterations removed exactly one
vertex, and `k` is at most (initial vertex count) - 2. -/
theorem clipLoop_invariant (fuel : Nat) : ∀ (s t : State) (k : Nat),
    s.points.length ≤ fuel → clipLoop fuel s = some (t, k) →
    (t.eartip_points = [] ∨ t.points.length < 3) ∧
    t.points.length + k = s.points.length ∧ k ≤ s.points.length - 2 := by
  induction fuel with
  | zero =>
    intro s t k hle h
    obtain ⟨rfl, rfl⟩ : s = t ∧ 0 = k := by
      simpa [clipLoop] using h
    refine ⟨Or.inr (by omega), by omega, by omega⟩
  | succ fuel ih =>
    intro s t k hle h
    rw [clipLoop] at h
    split_ifs at h with hcond
    · cases hstep : clipStep s with
      | none => rw [hstep] at h; simp at h
      | some s2 =>
        rw [hstep] at h
        dsimp only at h
        cases hrec : clipLoop fuel s2 with
        | none => rw [hrec] at h; simp at h
        | some r =>
          rw [hrec] at h
          simp at h
          obtain ⟨ht, hk⟩ := h
          have hlen := clipStep_length hstep
          have hrec2 := ih s2 r.1 r.2 (by omega) (by rw [hrec])
          subst ht
          refine ⟨hrec2.1, by omega, by omega⟩
    · obtain ⟨rfl, rfl⟩ : s = t ∧ 0 = k := by simpa using h
      push_neg at hcond
      by_cases hne : s.eartip_points = []
      · exact ⟨Or.inl hne, by omega, by omega⟩
      · exact ⟨Or.inr (by have := hcond hne; omega), by omega, by omega⟩

/-- C7: the clipping loop always terminates; every completed iteration
removes exactly one vertex, so a completed run of `k` iterations from an
`n`-vertex polygon has `k ≤ n - 2` and leaves `n - k` vertices; and a run
that does not hit the internal assert stops exactly when the ear-tip set is
empty or fewer than 3 vertices remain.  (The assert can fire: see the
counterexample.) -/
theorem clip_loop_terminates (fuel : Nat) (s t : State) (k : Nat)
    (hfuel : s.points.length ≤ fuel) (h : clipLoop fuel s = some (t, k)) :
    (t.eartip_points = [] ∨ t.points.length < 3) ∧
    t.points.length + k = s.points.length ∧ k ≤ s.points.length - 2 :=
  clipLoop_invariant fuel s t k hfuel h

/-- Witness for C7: the unit run on a counter-clockwise square performs two
iterations and stops with two vertices left. -/
theorem clip_loop_terminates_witness :
    clipLoop 4 ⟨[(0, ⟨0, 0⟩), (1, ⟨4, 0⟩), (2, ⟨4, 4⟩), (3, ⟨0, 4⟩)],
        [0, 1, 2, 3], [], 32, 0, []⟩
      = some (⟨[(2, ⟨4, 4⟩), (3, ⟨0, 4⟩)], [2, 3], [], 32, 32,
        [(⟨0, 4⟩, ⟨0, 0⟩, ⟨4, 0⟩), (⟨0, 4⟩, ⟨4, 0⟩, ⟨4, 4⟩)]⟩, 2) ∧
    ((State.eartip_points ⟨[(2, ⟨4, 4⟩), (3, ⟨0, 4⟩)], [2, 3], [], 32, 32,
        [(⟨0, 4⟩, ⟨0, 0⟩, ⟨4, 0⟩), (⟨0, 4⟩, ⟨4, 0⟩, ⟨4, 4⟩)]⟩ = [] ∨
      (State.points ⟨[(2, ⟨4, 4⟩), (3, ⟨0, 4⟩)], [2, 3], [], 32, 32,
        [(⟨0, 4⟩, ⟨0, 0⟩, ⟨4, 0⟩), (⟨0, 4⟩, ⟨4, 0⟩, ⟨4, 4⟩)]⟩).length < 3) ∧
      (State.points ⟨[(2, ⟨4, 4⟩), (3, ⟨0, 4⟩)], [2, 3], [], 32, 32,
        [(⟨0, 4⟩, ⟨0, 0⟩, ⟨4, 0⟩), (⟨0, 4⟩, ⟨4, 0⟩, ⟨4, 4⟩)]⟩).length + 2
        = (State.points ⟨[(0, ⟨0, 0⟩), (1, ⟨4, 0⟩), (2, ⟨4, 4⟩), (3, ⟨0, 4⟩)],
            [0, 1, 2, 3], [], 32, 0, []⟩).length ∧
      2 ≤ (State.points ⟨[(0, ⟨0, 0⟩), (1, ⟨4, 0⟩), (2, ⟨4, 4⟩), (3, ⟨0, 4⟩)],
            [0, 1, 2, 3], [], 32, 0, []⟩).length - 2) :=
  ⟨by decide, clip_loop_terminates 4 _ _ 2 (by decide) (by decide)⟩

/-- Counterexample for C7: on this strictly simple pentagon the loop does
not stop because the ear-tip set emptied or fewer than 3 vertices remained —
it aborts through `assert(area == 0 || check_convex(p1))` (the selected ear
tip has become non-convex without being re-examined). -/
theorem clip_loop_abort_counterexample :
    StrictlySimple [⟨1, 0⟩, ⟨-1, 1⟩, ⟨-3, 1⟩, ⟨-1, 0⟩, ⟨-1, -1⟩] ∧
    runClipper [⟨1, 0⟩, ⟨-1, 1⟩, ⟨-3, 1⟩, ⟨-1, 0⟩, ⟨-1, -1⟩] = none :=
  ⟨by decide, by decide⟩

/-- Facts about a successfully constructed clipper: no triangle has been
emitted yet and the vertex count is the input size after closing-duplicate
removal. -/
theorem mkClipper_inv {input : List Point} {s : State} (h : mkClipper input = some s) :
    s.tris = [] ∧ s.points.length = (removeClosingDup input).length := by
  unfold mkClipper at h
  dsimp only at h
  split_ifs at h with hlen
  obtain rfl := Option.some.inj h
  exact ⟨rfl, by simp [find_concave_and_eartips]⟩

/-- C8 (amended): a run that finishes with fewer than 3 vertices
remaining and in which every iteration emitted a triangle (no degenerate ear
was consumed) emits exactly `n - 2` triangles, `n` the vertex count after
closing-duplicate removal. -/
theorem clip_run_emits_n_minus_two (input : List Point) (s t : State) (k : Nat)
    (hmk : mkClipper input = some s)
    (hrun : clipLoop s.points.length s = some (t, k))
    (hend : t.points.length < 3)
    (hall : t.tris.length = k) :
    t.tris.length = (removeClosingDup input).length - 2 := by
  obtain ⟨h1, h2, h3⟩ := clipLoop_invariant _ s t k le_rfl hrun
  obtain ⟨_, hlen⟩ := mkClipper_inv hmk
  omega

/-- Witness for C8 on a convex pentagon: 3 = 5 - 2 triangles. -/
theorem clip_run_emits_n_minus_two_witness :
    mkClipper [⟨0, 0⟩, ⟨4, 0⟩, ⟨5, 3⟩, ⟨2, 5⟩, ⟨-1, 3⟩]
      = some ⟨[(0, ⟨0, 0⟩), (1, ⟨4, 0⟩), (2, ⟨5, 3⟩), (3, ⟨2, 5⟩), (4, ⟨-1, 3⟩)],
          [0, 1, 2, 3, 4], [], 42, 0, []⟩ ∧
    (State.tris ⟨[(3, ⟨2, 5⟩), (4, ⟨-1, 3⟩)], [3, 4], [], 42, 42,
        [(⟨-1, 3⟩, ⟨0, 0⟩, ⟨4, 0⟩), (⟨-1, 3⟩, ⟨4, 0⟩, ⟨5, 3⟩),
          (⟨-1, 3⟩, ⟨5, 3⟩, ⟨2, 5⟩)]⟩).length
      = (removeClosingDup [⟨0, 0⟩, ⟨4, 0⟩, ⟨5, 3⟩, ⟨2, 5⟩, ⟨-1, 3⟩]).length - 2 :=
  ⟨by decide,
    clip_run_emits_n_minus_two [⟨0, 0⟩, ⟨4, 0⟩, ⟨5, 3⟩, ⟨2, 5⟩, ⟨-1, 3⟩]
      ⟨[(0, ⟨0, 0⟩), (1, ⟨4, 0⟩), (2, ⟨5, 3⟩), (3, ⟨2, 5⟩), (4, ⟨-1, 3⟩)],
        [0, 1, 2, 3, 4], [], 42, 0, []⟩
      ⟨[(3, ⟨2, 5⟩), (4, ⟨-1, 3⟩)], [3, 4], [], 42, 42,
        [(⟨-1, 3⟩, ⟨0, 0⟩, ⟨4, 0⟩), (⟨-1, 3⟩, ⟨4, 0⟩, ⟨5, 3⟩),
          (⟨-1, 3⟩, ⟨5, 3⟩, ⟨2, 5⟩)]⟩
      3 (by decide) (by decide) (by decide) (by decide)⟩

/-- Counterexample for C8 as stated: a strictly simple pentagon with no
three consecutive collinear vertices for which the run emits only 2
triangles instead of 5 - 2 = 3 (one vertex of the shrinking polygon becomes
collinear with its new neighbours and is consumed as a degenerate ear). -/
theorem emitted_count_counterexample :
    StrictlySimple [⟨0, 1⟩, ⟨2, 0⟩, ⟨1, -2⟩, ⟨1, 0⟩, ⟨0, 0⟩] ∧
    NoThreeConsecutiveCollinear [⟨0, 1⟩, ⟨2, 0⟩, ⟨1, -2⟩, ⟨1, 0⟩, ⟨0, 0⟩] ∧
    removeClosingDup [⟨0, 1⟩, ⟨2, 0⟩, ⟨1, -2⟩, ⟨1, 0⟩, ⟨0, 0⟩]
      = [⟨0, 1⟩, ⟨2, 0⟩, ⟨1, -2⟩, ⟨1, 0⟩, ⟨0, 0⟩] ∧
    (runClipper [⟨0, 1⟩, ⟨2, 0⟩, ⟨1, -2⟩, ⟨1, 0⟩, ⟨0, 0⟩]).map
        (fun r => r.1.tris.length) = some 2 ∧
    (2 : Nat) ≠ ([⟨0, 1⟩, ⟨2, 0⟩, ⟨1, -2⟩, ⟨1, 0⟩, ⟨0, 0⟩] : List Point).length - 2 :=
  ⟨by decide, by decide, by decide, by decide, by decide⟩

/-- C1: on this strictly simple pentagon (no closing duplicate, no three
consecutive collinear vertices) the run aborts: clipping the first ear puts
a reflex vertex exactly on the clip chord, after two emissions the
accumulated area (8) already exceeds the integrated area (7), and the third
iteration selects a stale ear tip whose triangle is nonzero but oriented the
wrong way, so `assert(area == 0 || check_convex(p1))` fires; the program
dies without ever reaching a passing final consistency assertion. -/
theorem area_consistency_fails_on_valid_input :
    StrictlySimple [⟨2, 0⟩, ⟨1, 2⟩, ⟨0, 2⟩, ⟨0, 1⟩, ⟨-1, 0⟩] ∧
    NoThreeConsecutiveCollinear [⟨2, 0⟩, ⟨1, 2⟩, ⟨0, 2⟩, ⟨0, 1⟩, ⟨-1, 0⟩] ∧
    removeClosingDup [⟨2, 0⟩, ⟨1, 2⟩, ⟨0, 2⟩, ⟨0, 1⟩, ⟨-1, 0⟩]
      = [⟨2, 0⟩, ⟨1, 2⟩, ⟨0, 2⟩, ⟨0, 1⟩, ⟨-1, 0⟩] ∧
    (((mkClipper [⟨2, 0⟩, ⟨1, 2⟩, ⟨0, 2⟩, ⟨0, 1⟩, ⟨-1, 0⟩]).bind clipStep).bind
        clipStep).map (fun s => (s.area_from_triangulation, s.area_from_integral))
      = some (8, 7) ∧
    runClipper [⟨2, 0⟩, ⟨1, 2⟩, ⟨0, 2⟩, ⟨0, 1⟩, ⟨-1, 0⟩] = none :=
  ⟨by decide, by decide, by decide, by decide, by decide⟩

/-! ### The maintained sets -/

/-- `check_convex` only reads the polygon and the integral sign. -/
theorem check_convex_congr {s s2 : State} (hp : s.points = s2.points)
    (ha : s.area_from_integral = s2.area_from_integral) (i : Nat) :
    check_convex s i = check_convex s2 i := by
  simp only [check_convex, pointOf, ptAt, idxOf, prevId, nextId]
  simp only [hp, ha]

/-- `check_ear` only reads the polygon and the concave set. -/
theorem check_ear_congr {s s2 : State} (hp : s.points = s2.points)
    (hc : s.concav_points = s2.concav_points) (i : Nat) :
    check_ear s i = check_ear s2 i := by
  simp only [check_ear, pointOf, ptAt, idxOf, prevId, nextId]
  simp only [hp, hc]

/-- The initial classification establishes the claimed characterization of
the ear-tip and concave sets. -/
theorem find_concave_characterized (s0 : State) :
    SetsCharacterized (find_concave_and_eartips s0) := by
  unfold find_concave_and_eartips
  dsimp only
  set s1 : State := { s0 with
    concav_points := (s0.points.map (fun q => q.1)).filter (fun i => !(check_convex s0 i)) }
    with hs1
  set s : State := { s1 with
    eartip_points := ((s0.points.map (fun q => q.1)).filter (fun i => check_convex s0 i)).filter
      (fun i => check_ear s1 i) } with hs
  have hpts : s.points = s0.points := rfl
  have hcc : ∀ i, check_convex s i = check_convex s0 i := fun i =>
    check_convex_congr rfl rfl i
  have hce : ∀ i, check_ear s i = check_ear s1 i := fun i =>
    check_ear_congr rfl rfl i
  refine ⟨?_, ?_, ?_⟩
  · intro q hq
    have hid : q.1 ∈ s0.points.map (fun q => q.1) := List.mem_map_of_mem _ hq
    constructor
    · rw [show s.eartip_points =
        ((s0.points.map (fun q => q.1)).filter (fun i => check_convex s0 i)).filter
          (fun i => check_ear s1 i) from rfl,
        List.mem_filter, List.mem_filter, hcc, hce]
      constructor
      · rintro ⟨⟨_, hcv⟩, hev⟩; exact ⟨hcv, hev⟩
      · rintro ⟨hcv, hev⟩; exact ⟨⟨hid, hcv⟩, hev⟩
    · rw [show s.concav_points =
        (s0.points.map (fun q => q.1)).filter (fun i => !(check_convex s0 i)) from rfl,
        List.mem_filter, hcc]
      constructor
      · rintro ⟨_, hcv⟩; simpa using hcv
      · intro hcv; exact ⟨hid, by simpa using hcv⟩
  · intro i hi
    rw [show s.eartip_points =
      ((s0.points.map (fun q => q.1)).filter (fun i => check_convex s0 i)).filter
        (fun i => check_ear s1 i) from rfl, List.mem_filter, List.mem_filter] at hi
    simpa using hi.1.1
  · intro i hi
    rw [show s.concav_points =
      (s0.points.map (fun q => q.1)).filter (fun i => !(check_convex s0 i)) from rfl,
      List.mem_filter] at hi
    simpa using hi.1

/-- After construction the claimed set characterization holds. -/
theorem mkClipper_characterized {input : List Point} {s : State}
    (h : mkClipper input = some s) : SetsCharacterized s := by
  unfold mkClipper at h
  dsimp only at h
  split_ifs at h with hlen
  obtain rfl := Option.some.inj h
  exact find_concave_characterized _

theorem mem_insertId {i j : Nat} {l : List Nat} (h : j ≠ i) :
    j ∈ insertId i l ↔ j ∈ l := by
  unfold insertId
  split_ifs with hmem
  · exact Iff.rfl
  · simp [h]

/-- The neighbour update can only change the membership of the vertex it
re-examines. -/
theorem updateNeighbor_mem (s : State) (p j : Nat) (hj : j ≠ p) :
    ((j ∈ (updateNeighbor s p).eartip_points) ↔ j ∈ s.eartip_points) ∧
    ((j ∈ (updateNeighbor s p).concav_points) ↔ j ∈ s.concav_points) := by
  unfold updateNeighbor
  split_ifs with h1
  · dsimp only
    split_ifs with h2
    · exact ⟨mem_insertId hj, List.mem_erase_of_ne hj⟩
    · exact ⟨List.mem_erase_of_ne hj, List.mem_erase_of_ne hj⟩
  · exact ⟨Iff.rfl, Iff.rfl⟩

/-- A successful iteration changes set membership only for the removed
vertex and its two neighbours. -/
theorem clipStep_changes_only_neighbors (s s2 : State) (p1 : Nat) (rest : List Nat)
    (j : Nat) (h1 : s.eartip_points = p1 :: rest) (h : clipStep s = some s2)
    (hj1 : j ≠ p1) (hj2 : j ≠ prevId s p1) (hj3 : j ≠ nextId s p1) :
    ((j ∈ s2.eartip_points) ↔ j ∈ s.eartip_points) ∧
    ((j ∈ s2.concav_points) ↔ j ∈ s.concav_points) := by
  rw [clipStep.eq_def, h1] at h
  dsimp only at h
  split_ifs at h with h2 h3 h4
  all_goals obtain rfl := Option.some.inj h
  all_goals rw [h1]
  all_goals constructor
  all_goals first
  | (rw [(updateNeighbor_mem _ _ j hj3).1, (updateNeighbor_mem _ _ j hj2).1]
     exact List.mem_erase_of_ne hj1)
  | (rw [(updateNeighbor_mem _ _ j hj3).2, (updateNeighbor_mem _ _ j hj2).2])

/-- C3 (amended): right after construction the ear-tip set is exactly the
set of remaining vertices passing `check_convex` and `check_ear` and the
concave set is exactly the set of remaining non-convex vertices; and a clip
changes set membership only for the removed vertex and its two neighbours.
(The characterization itself is not preserved across clips: see the
counterexample.) -/
theorem maintained_sets_characterization :
    (∀ input s, mkClipper input = some s → SetsCharacterized s) ∧
    (∀ s s2 p1 rest j, s.eartip_points = p1 :: rest → clipStep s = some s2 →
      j ≠ p1 → j ≠ prevId s p1 → j ≠ nextId s p1 →
      ((j ∈ s2.eartip_points) ↔ j ∈ s.eartip_points) ∧
      ((j ∈ s2.concav_points) ↔ j ∈ s.concav_points)) :=
  ⟨fun _ _ h => mkClipper_characterized h,
    fun s s2 p1 rest j h1 h hj1 hj2 hj3 =>
      clipStep_changes_only_neighbors s s2 p1 rest j h1 h hj1 hj2 hj3⟩

/-- Witness for C3 on the unit square: the constructed state is
characterized, and after clipping vertex 0 the memberships of the
non-adjacent vertex 2 are untouched. -/
theorem maintained_sets_characterization_witness :
    SetsCharacterized ⟨[(0, ⟨0, 0⟩), (1, ⟨4, 0⟩), (2, ⟨4, 4⟩), (3, ⟨0, 4⟩)],
        [0, 1, 2, 3], [], 32, 0, []⟩ ∧
    (((2 : Nat) ∈ State.eartip_points ⟨[(1, ⟨4, 0⟩), (2, ⟨4, 4⟩), (3, ⟨0, 4⟩)],
        [1, 2, 3], [], 32, 16, [(⟨0, 4⟩, ⟨0, 0⟩, ⟨4, 0⟩)]⟩ ↔
      (2 : Nat) ∈ State.eartip_points ⟨[(0, ⟨0, 0⟩), (1, ⟨4, 0⟩), (2, ⟨4, 4⟩), (3, ⟨0, 4⟩)],
        [0, 1, 2, 3], [], 32, 0, []⟩) ∧
    ((2 : Nat) ∈ State.concav_points ⟨[(1, ⟨4, 0⟩), (2, ⟨4, 4⟩), (3, ⟨0, 4⟩)],
        [1, 2, 3], [], 32, 16, [(⟨0, 4⟩, ⟨0, 0⟩, ⟨4, 0⟩)]⟩ ↔
      (2 : Nat) ∈ State.concav_points ⟨[(0, ⟨0, 0⟩), (1, ⟨4, 0⟩), (2, ⟨4, 4⟩), (3, ⟨0, 4⟩)],
        [0, 1, 2, 3], [], 32, 0, []⟩)) :=
  ⟨maintained_sets_characterization.1 [⟨0, 0⟩, ⟨4, 0⟩, ⟨4, 4⟩, ⟨0, 4⟩] _ (by decide),
    maintained_sets_characterization.2
      ⟨[(0, ⟨0, 0⟩), (1, ⟨4, 0⟩), (2, ⟨4, 4⟩), (3, ⟨0, 4⟩)], [0, 1, 2, 3], [], 32, 0, []⟩
      ⟨[(1, ⟨4, 0⟩), (2, ⟨4, 4⟩), (3, ⟨0, 4⟩)], [1, 2, 3], [], 32, 16,
        [(⟨0, 4⟩, ⟨0, 0⟩, ⟨4, 0⟩)]⟩
      0 [1, 2, 3] 2 rfl (by decide) (by decide) (by decide) (by decide)⟩

/-- Counterexample for C3 as stated: on this strictly simple quadrilateral
the characterization holds after construction but fails right after the
first clip — both former neighbours of the removed vertex become collinear
with their new neighbours (hence non-convex), yet they stay in the ear-tip
set and out of the concave set. -/
theorem maintained_sets_characterization_counterexample :
    StrictlySimple [⟨1, 1⟩, ⟨2, 0⟩, ⟨1, 0⟩, ⟨0, 0⟩] ∧
    (mkClipper [⟨1, 1⟩, ⟨2, 0⟩, ⟨1, 0⟩, ⟨0, 0⟩]).map
        (fun s => decide (SetsCharacterized s)) = some true ∧
    ((mkClipper [⟨1, 1⟩, ⟨2, 0⟩, ⟨1, 0⟩, ⟨0, 0⟩]).bind clipStep).map
        (fun s => decide (SetsCharacterized s)) = some false :=
  ⟨by decide, by decide, by decide⟩

/-! ### The two ear tests -/

/-- A corner of the triangle is never strictly inside it. -/
theorem inside_triangle_mid_vertex (a b c : Point) :
    inside_triangle b a b c = false := by
  cases hIT : inside_triangle b a b c with
  | false => rfl
  | true =>
    obtain ⟨h1, _, _, _, _⟩ := (inside_triangle_iff b a b c).mp hIT
    exact absurd (by rw [triangle_area_coords]; ring) h1

/-- In a list of id-point records with pairwise-distinct ids, looking up the
position of a member's id retrieves that member. -/
theorem getD_findIdx_eq {l : List (Nat × Point)} {q d : Nat × Point}
    (hnd : (l.map Prod.fst).Nodup) (hq : q ∈ l) :
    l.getD (l.findIdx (fun r => r.1 == q.1)) d = q := by
  induction l with
  | nil => cases hq
  | cons a t ih =>
    rw [List.map_cons, List.nodup_cons] at hnd
    by_cases ha : a.1 = q.1
    · have haq : q = a := by
        rcases List.mem_cons.mp hq with h | h
        · exact h
        · exact absurd (ha ▸ List.mem_map_of_mem Prod.fst h) hnd.1
      subst haq
      rw [List.findIdx_cons]
      simp
    · have hq2 : q ∈ t := by
        rcases List.mem_cons.mp hq with h | h
        · subst h; exact absurd rfl ha
        · exact h
      rw [List.findIdx_cons]
      have hne : (a.1 == q.1) = false := by simp [ha]
      rw [hne]
      simpa using ih hnd.2 hq2

/-- With pairwise-distinct ids, `pointOf` returns the stored coordinates. -/
theorem pointOf_mem {s : State} (hnd : (s.points.map Prod.fst).Nodup)
    {q : Nat × Point} (hq : q ∈ s.points) : pointOf s q.1 = q.2 := by
  unfold pointOf ptAt idxOf
  rw [getD_findIdx_eq hnd hq]

/-- C6 (amended): the reflex-set ear test is implied by the full-vertex ear
test — whenever no other remaining vertex lies strictly inside the
candidate triangle, the vertex ids are pairwise distinct, and the concave
set only holds remaining vertices, `check_ear` passes.  The converse
direction of the claim is false: see the counterexample. -/
theorem check_ear_of_full_check (s : State) (p1 : Nat)
    (hnd : (s.points.map Prod.fst).Nodup)
    (hsub : ∀ i ∈ s.concav_points, i ∈ s.points.map Prod.fst)
    (hfull : full_vertex_check s p1 = true) : check_ear s p1 = true := by
  unfold check_ear
  rw [List.all_eq_true]
  intro v hv
  obtain ⟨q, hq, hq1⟩ := List.mem_map.mp (hsub v hv)
  unfold full_vertex_check at hfull
  rw [List.all_eq_true] at hfull
  have hfq := hfull q hq
  by_cases hqp : q.1 = p1
  · rw [← hq1, hqp]
    simp [inside_triangle_mid_vertex]
  · rw [← hq1, pointOf_mem hnd hq]
    have hne : (q.1 == p1) = false := by simp [hqp]
    rw [hne] at hfq
    simp only [Bool.false_or] at hfq
    exact hfq

/-- Witness for C6 on an arrow quadrilateral with one reflex vertex: for
ear-tip candidate 1 the full test passes and so does the reflex-set test. -/
theorem check_ear_of_full_check_witness :
    check_ear ⟨[(0, ⟨0, 0⟩), (1, ⟨4, 0⟩), (2, ⟨1, 1⟩), (3, ⟨0, 4⟩)],
        [1, 3], [2], 8, 0, []⟩ 1 = true :=
  check_ear_of_full_check
    ⟨[(0, ⟨0, 0⟩), (1, ⟨4, 0⟩), (2, ⟨1, 1⟩), (3, ⟨0, 4⟩)], [1, 3], [2], 8, 0, []⟩
    1 (by decide) (by decide) (by decide)

/-- Counterexample for C6 as stated: a state reached after one clip of this
strictly simple hexagon has a convex vertex (id 0) whose reflex-set ear test
passes while a remaining vertex recorded as convex — id 4 = (1,1) — lies
strictly inside its triangle, so the full-vertex test fails: the two tests
are not equivalent. -/
theorem ear_test_equivalence_counterexample :
    StrictlySimple [⟨6, 0⟩, ⟨0, -1⟩, ⟨0, 0⟩, ⟨3, 0⟩, ⟨1, 1⟩, ⟨1, 3⟩] ∧
    ((mkClipper [⟨6, 0⟩, ⟨0, -1⟩, ⟨0, 0⟩, ⟨3, 0⟩, ⟨1, 1⟩, ⟨1, 3⟩]).bind clipStep).map
        (fun s => (check_convex s 0, check_ear s 0, full_vertex_check s 0))
      = some (true, true, false) :=
  ⟨by decide, by decide⟩

end EarClip
